import Mathlib

/-!
Shallow embedding of `src/ether.js` (an Ethereum pending-transaction
monitor that sweeps funds from a monitored address), together with
theorems settling the specification claims about it.

Modelling conventions:
* ethers `BigNumber` amounts (wei) are `Int` (arbitrary-precision signed
  integers, which is what `BigNumber` is).
* JavaScript strings used as addresses are `List Char`, so that
  `toLowerCase()` is `List.map Char.toLower`; transaction hashes are
  opaque `String`s.
* A JavaScript value that may be `null`/`undefined` is an `Option`;
  a call that may throw is an `Except Unit`.
* The `async` control flow of the two workers is modelled as a small-step
  transition system whose atomic steps are exactly the synchronous code
  segments between `await` suspension points of the JavaScript event loop.
-/

namespace EtherBot

/-! ### IngestQueue: the `provider.on("pending")` handler (ether.js 117-126)

`if (pendingQueue.length >= 100) pendingQueue.shift(); pendingQueue.push(txHash);`
`shift()` removes the list head (the oldest element, since `push` appends). -/

/-- Capacity of the pending queue (`100` in the handler's guard). -/
def pendingCapacity : Nat := 100

/-- One execution of the body of the `provider.on("pending", ...)` handler,
restricted to its queue mutation: evict the head when at (or above) capacity,
then append the new hash. -/
def pushPending (pendingQueue : List String) (txHash : String) : List String :=
  if pendingCapacity ≤ pendingQueue.length then
    pendingQueue.tail ++ [txHash]
  else
    pendingQueue ++ [txHash]

/-- A whole sequence of handler invocations starting from a given queue. -/
def pushPendingAll (pendingQueue : List String) (hashes : List String) : List String :=
  hashes.foldl pushPending pendingQueue

theorem pushPending_length_le (q : List String) (x : String)
    (h : q.length ≤ pendingCapacity) :
    (pushPending q x).length ≤ pendingCapacity := by
  unfold pushPending
  split
  · rename_i hge
    have h100 : q.length = pendingCapacity := le_antisymm h hge
    have hq : q ≠ [] := by
      intro hnil
      rw [hnil] at h100
      simp [pendingCapacity] at h100
    simp only [List.length_append, List.length_tail, h100,
      List.length_cons, List.length_nil]
    simp [pendingCapacity]
  · rename_i hlt
    push_neg at hlt
    simp only [List.length_append, List.length_cons, List.length_nil]
    omega

theorem pushPendingAll_length_le (hashes : List String) :
    ∀ q : List String, q.length ≤ pendingCapacity →
      (pushPendingAll q hashes).length ≤ pendingCapacity := by
  induction hashes with
  | nil => intro q h; simpa [pushPendingAll] using h
  | cons x xs ih =>
      intro q h
      have := pushPending_length_le q x h
      simpa [pushPendingAll, List.foldl_cons] using ih (pushPending q x) this

/-- C2: the ingest queue, fed from the empty initial queue, never exceeds
capacity 100; a push arriving at capacity removes exactly the FIFO head
before appending (so retained elements keep arrival order), and a push
below capacity merely appends. -/
theorem pendingQueue_bounded_ingestion :
    (∀ hashes : List String, (pushPendingAll [] hashes).length ≤ pendingCapacity) ∧
    (∀ (q : List String) (x : String), q.length = pendingCapacity →
      pushPending q x = q.tail ++ [x]) ∧
    (∀ (q : List String) (x : String), q.length < pendingCapacity →
      pushPending q x = q ++ [x]) := by
  refine ⟨fun hashes => pushPendingAll_length_le hashes [] (by simp), ?_, ?_⟩
  · intro q x h
    unfold pushPending
    rw [if_pos (le_of_eq h.symm)]
  · intro q x h
    unfold pushPending
    rw [if_neg (by omega)]

/-- Witness for C2 at concrete inputs: a queue of 100 entries evicts its
head on push, and a short queue appends. -/
theorem pendingQueue_bounded_ingestion_witness :
    pushPending (List.replicate 100 "a") "b" = (List.replicate 100 "a").tail ++ ["b"] ∧
    pushPending ["a"] "b" = ["a"] ++ ["b"] :=
  ⟨pendingQueue_bounded_ingestion.2.1 (List.replicate 100 "a") "b" (by simp [pendingCapacity]),
   pendingQueue_bounded_ingestion.2.2 ["a"] "b" (by simp [pendingCapacity])⟩

/-! ### RetryingFetcher: `safeGetTransaction` (ether.js 27-38)

`for (let i = 0; i < retries; i++) { try { const tx = await provider.getTransaction(txHash);
if (tx) return tx; } catch (err) { console.warn(...); } await sleep(delay * 2 ** i); }
throw new Error(...)`.

The i-th lookup attempt is modelled by an oracle value: it threw, returned
a falsy/absent record, or returned a record. The model returns the final
result (`none` models the thrown not-found error), the number of lookup
attempts performed, and the list of back-off sleeps executed. -/

/-- Outcome of one `provider.getTransaction` call. -/
inductive FetchOutcome (α : Type) where
  | threw
  | empty
  | found (tx : α)
deriving DecidableEq

/-- A lookup attempt counts as failed when it threw or returned nothing
(both fall through to the back-off sleep in the source). -/
def attemptFails {α : Type} : FetchOutcome α → Bool
  | .found _ => false
  | .threw => true
  | .empty => true

/-- Observable trace of one `safeGetTransaction` call: final result
(`none` = the not-found error was thrown), number of lookup attempts,
and the back-off delays slept in order. -/
structure FetchTrace (α : Type) where
  result : Option α
  attempts : Nat
  delays : List Nat
deriving DecidableEq

/-- The retry loop of `safeGetTransaction`, with `i` the current loop index
and `fuel` the remaining iterations (`retries - i`). A found transaction
returns immediately; a throw (after the `console.warn`) and an empty result
both sleep `delay * 2 ^ i` and loop. -/
def safeGetTransactionAux {α : Type} (oracle : Nat → FetchOutcome α) (delay : Nat) :
    Nat → Nat → FetchTrace α
  | _, 0 => ⟨none, 0, []⟩
  | i, fuel + 1 =>
    match oracle i with
    | .found tx => ⟨some tx, 1, []⟩
    | .threw =>
        let rest := safeGetTransactionAux oracle delay (i + 1) fuel
        ⟨rest.result, rest.attempts + 1, delay * 2 ^ i :: rest.delays⟩
    | .empty =>
        let rest := safeGetTransactionAux oracle delay (i + 1) fuel
        ⟨rest.result, rest.attempts + 1, delay * 2 ^ i :: rest.delays⟩

/-- `safeGetTransaction(provider, txHash, retries = 5, delay = 1500)`. -/
def safeGetTransaction {α : Type} (oracle : Nat → FetchOutcome α)
    (retries : Nat := 5) (delay : Nat := 1500) : FetchTrace α :=
  safeGetTransactionAux oracle delay 0 retries

theorem safeGetTransactionAux_success {α : Type} (oracle : Nat → FetchOutcome α) (d : Nat) :
    ∀ (k s fuel : Nat) (tx : α), k < fuel →
      (∀ j, j < k → attemptFails (oracle (s + j)) = true) →
      oracle (s + k) = .found tx →
      safeGetTransactionAux oracle d s fuel =
        ⟨some tx, k + 1, (List.range k).map (fun i => d * 2 ^ (s + i))⟩ := by
  intro k
  induction k with
  | zero =>
      intro s fuel tx hk _ hfound
      obtain ⟨m, rfl⟩ : ∃ m, fuel = m + 1 := ⟨fuel - 1, by omega⟩
      have h : oracle s = .found tx := by simpa using hfound
      simp [safeGetTransactionAux, h]
  | succ k ih =>
      intro s fuel tx hk hfail hfound
      obtain ⟨m, rfl⟩ : ∃ m, fuel = m + 1 := ⟨fuel - 1, by omega⟩
      have h0 : attemptFails (oracle s) = true := by
        simpa using hfail 0 (Nat.succ_pos k)
      have hshift : ∀ j, j < k → attemptFails (oracle (s + 1 + j)) = true := by
        intro j hj
        have := hfail (j + 1) (by omega)
        simpa [show s + (j + 1) = s + 1 + j by omega] using this
      have hfound' : oracle (s + 1 + k) = .found tx := by
        simpa [show s + (k + 1) = s + 1 + k by omega] using hfound
      have hrest := ih (s + 1) m tx (by omega) hshift hfound'
      have hlist : (List.range (k + 1)).map (fun i => d * 2 ^ (s + i)) =
          d * 2 ^ s :: (List.range k).map (fun i => d * 2 ^ (s + 1 + i)) := by
        rw [List.range_succ_eq_map, List.map_cons, List.map_map]
        congr 1
        apply List.map_congr_left
        intro a _
        show d * 2 ^ (s + (a + 1)) = d * 2 ^ (s + 1 + a)
        have harith : s + (a + 1) = s + 1 + a := by omega
        rw [harith]
      cases hor : oracle s with
      | found tx' => rw [hor] at h0; simp [attemptFails] at h0
      | threw =>
          simp only [safeGetTransactionAux, hor, hrest, hlist]
      | empty =>
          simp only [safeGetTransactionAux, hor, hrest, hlist]

theorem safeGetTransactionAux_fail {α : Type} (oracle : Nat → FetchOutcome α) (d : Nat) :
    ∀ (fuel s : Nat), (∀ j, j < fuel → attemptFails (oracle (s + j)) = true) →
      safeGetTransactionAux oracle d s fuel =
        ⟨none, fuel, (List.range fuel).map (fun i => d * 2 ^ (s + i))⟩ := by
  intro fuel
  induction fuel with
  | zero => intro s _; simp [safeGetTransactionAux]
  | succ m ih =>
      intro s hfail
      have h0 : attemptFails (oracle s) = true := by
        simpa using hfail 0 (Nat.succ_pos m)
      have hshift : ∀ j, j < m → attemptFails (oracle (s + 1 + j)) = true := by
        intro j hj
        have := hfail (j + 1) (by omega)
        simpa [show s + (j + 1) = s + 1 + j by omega] using this
      have hrest := ih (s + 1) hshift
      have hlist : (List.range (m + 1)).map (fun i => d * 2 ^ (s + i)) =
          d * 2 ^ s :: (List.range m).map (fun i => d * 2 ^ (s + 1 + i)) := by
        rw [List.range_succ_eq_map, List.map_cons, List.map_map]
        congr 1
        apply List.map_congr_left
        intro a _
        show d * 2 ^ (s + (a + 1)) = d * 2 ^ (s + 1 + a)
        have harith : s + (a + 1) = s + 1 + a := by omega
        rw [harith]
      cases hor : oracle s with
      | found tx' => rw [hor] at h0; simp [attemptFails] at h0
      | threw =>
          simp only [safeGetTransactionAux, hor, hrest, hlist]
      | empty =>
          simp only [safeGetTransactionAux, hor, hrest, hlist]

theorem backoff_delays_strict_mono (d k : Nat) (hd : 0 < d) :
    ((List.range k).map (fun i => d * 2 ^ i)).Chain' (· < ·) := by
  rw [List.chain'_map]
  cases k with
  | zero => simp
  | succ n =>
      rw [List.chain'_range_succ]
      intro m _
      exact (mul_lt_mul_left hd).mpr (Nat.pow_lt_pow_right (by norm_num) (Nat.lt_succ_self m))

/-- C3: with the default budget of 5 attempts and base delay 1500, if the
first `k` lookups fail (thrown or empty alike) and lookup `k < 5` succeeds,
`safeGetTransaction` performs exactly `k + 1` attempts, sleeps the strictly
increasing delays `1500 * 2 ^ i` for `i < k`, and returns the success; if
all 5 lookups fail it performs exactly 5 attempts and throws (result
`none`) after sleeping `1500 * 2 ^ i` for `i < 5`. -/
theorem safeGetTransaction_retry_backoff {α : Type} (oracle : Nat → FetchOutcome α) :
    (∀ (k : Nat) (tx : α), k < 5 →
      (∀ j, j < k → attemptFails (oracle j) = true) →
      oracle k = FetchOutcome.found tx →
      (safeGetTransaction oracle).result = some tx ∧
      (safeGetTransaction oracle).attempts = k + 1 ∧
      (safeGetTransaction oracle).delays = (List.range k).map (fun i => 1500 * 2 ^ i) ∧
      (safeGetTransaction oracle).delays.Chain' (· < ·)) ∧
    ((∀ j, j < 5 → attemptFails (oracle j) = true) →
      (safeGetTransaction oracle).result = none ∧
      (safeGetTransaction oracle).attempts = 5 ∧
      (safeGetTransaction oracle).delays = (List.range 5).map (fun i => 1500 * 2 ^ i)) := by
  constructor
  · intro k tx hk hfail hfound
    have h := safeGetTransactionAux_success oracle 1500 k 0 5 tx hk
      (by simpa using hfail) (by simpa using hfound)
    rw [safeGetTransaction, h]
    refine ⟨rfl, rfl, by simp, ?_⟩
    simpa using backoff_delays_strict_mono 1500 k (by norm_num)
  · intro hfail
    have h := safeGetTransactionAux_fail oracle 1500 5 0 (by simpa using hfail)
    rw [safeGetTransaction, h]
    exact ⟨rfl, rfl, by simp⟩

/-- Witness for C3: an oracle that throws twice then succeeds yields the
success in 3 attempts; an always-empty oracle exhausts all 5 attempts. -/
theorem safeGetTransaction_retry_backoff_witness :
    (safeGetTransaction (fun i => if i < 2 then FetchOutcome.threw else FetchOutcome.found 42)).result = some 42 ∧
    (safeGetTransaction (fun i => if i < 2 then FetchOutcome.threw else FetchOutcome.found 42)).attempts = 3 ∧
    (safeGetTransaction (fun _ : Nat => FetchOutcome.empty (α := Nat))).result = none ∧
    (safeGetTransaction (fun _ : Nat => FetchOutcome.empty (α := Nat))).attempts = 5 := by
  have h1 := (safeGetTransaction_retry_backoff
    (fun i => if i < 2 then FetchOutcome.threw else FetchOutcome.found 42)).1 2 42
    (by norm_num) (by decide) (by norm_num)
  have h2 := (safeGetTransaction_retry_backoff (fun _ : Nat => FetchOutcome.empty (α := Nat))).2
    (by intro j _; rfl)
  exact ⟨h1.1, h1.2.1, h2.1, h2.2.1⟩

/-! ### DetectionWorker filter: body of `processPendingQueue` (ether.js 53-67)

`const tx = await safeGetTransaction(provider, txHash);
if (tx && tx.to && tx.to.toLowerCase() === MONITORED_ADDRESS) { forwardQueue.push(txHash); ... }`
with `MONITORED_ADDRESS = process.env.MONITORED_ADDRESS?.toLowerCase()` (line 6).

Addresses are JavaScript strings, modelled as `List Char`; `toLowerCase()`
is `List.map Char.toLower`. `tx.to` may be `null` (contract creation),
modelled as `Option`; the JavaScript truthiness test `tx.to` also rejects
the empty string, modelled as `[]`. A resolution that threw (the
`NotFoundError` of `safeGetTransaction`, caught at line 62) is `.error ()`. -/

/-- An address: a JavaScript string as a list of characters. -/
abbrev Addr := List Char

/-- `s.toLowerCase()` on an address string. -/
def lowerAddr (a : Addr) : Addr := a.map Char.toLower

/-- The fields of a resolved transaction that the filter reads. `toAddr`
models the JavaScript field `tx.to` (`to` is a reserved word in Lean);
it is `null` for contract-creation transactions. -/
structure Tx where
  toAddr : Option Addr

/-- The guard of ether.js line 57: a resolved record is enqueued exactly
when it exists, its `to` field is truthy (non-null, non-empty), and its
lower-cased `to` equals `MONITORED_ADDRESS`. -/
def detectEnqueue (monitored : Addr) (res : Except Unit Tx) : Bool :=
  match res with
  | .error _ => false
  | .ok t =>
    match t.toAddr with
    | none => false
    | some a => !a.isEmpty && decide (lowerAddr a = monitored)

/-- Effect of one `processPendingQueue` loop body on `forwardQueue`:
`forwardQueue.push(txHash)` exactly when the guard holds. -/
def processPendingItem (monitored : Addr) (res : Except Unit Tx)
    (forwardQueue : List String) (txHash : String) : List String :=
  if detectEnqueue monitored res then forwardQueue ++ [txHash] else forwardQueue

theorem lowerAddr_eq_nil {a : Addr} : lowerAddr a = [] ↔ a = [] := by
  simp [lowerAddr]

/-- C4: with a non-empty configured address `raw` (startup exits when it is
missing) and `MONITORED_ADDRESS = lowerAddr raw`, a resolved transaction is
enqueued—by appending its hash exactly once—if and only if its recipient,
lower-cased, equals `MONITORED_ADDRESS`; otherwise the forward queue is
unchanged. -/
theorem detection_filter_correct (raw : Addr) (hraw : raw ≠ []) (t : Tx)
    (fq : List String) (h : String) :
    (detectEnqueue (lowerAddr raw) (Except.ok t) = true ↔
      ∃ a, t.toAddr = some a ∧ lowerAddr a = lowerAddr raw) ∧
    (detectEnqueue (lowerAddr raw) (Except.ok t) = true →
      processPendingItem (lowerAddr raw) (Except.ok t) fq h = fq ++ [h]) ∧
    (detectEnqueue (lowerAddr raw) (Except.ok t) = false →
      processPendingItem (lowerAddr raw) (Except.ok t) fq h = fq) := by
  refine ⟨?_, ?_, ?_⟩
  · constructor
    · intro henq
      cases hto : t.toAddr with
      | none => rw [detectEnqueue, hto] at henq; simp at henq
      | some a =>
          rw [detectEnqueue, hto] at henq
          simp only [Bool.and_eq_true, decide_eq_true_eq, Bool.not_eq_true',
            List.isEmpty_iff] at henq
          exact ⟨a, rfl, henq.2⟩
    · rintro ⟨a, hto, heq⟩
      have hrawlow : lowerAddr raw ≠ [] := fun hh => hraw (lowerAddr_eq_nil.mp hh)
      have ha : ¬a.isEmpty = true := by
        intro hemp
        have hanil : a = [] := List.isEmpty_iff.mp hemp
        rw [hanil] at heq
        exact hrawlow heq.symm
      rw [detectEnqueue, hto]
      simp [ha, heq]
  · intro henq
    rw [processPendingItem, if_pos henq]
  · intro henq
    rw [processPendingItem, henq]
    simp

/-- Witness for C4: with monitored raw address `"A"`, a transaction to
`"a"` is appended once, and one to `"b"` leaves the queue unchanged. -/
theorem detection_filter_correct_witness :
    processPendingItem (lowerAddr ['A']) (Except.ok ⟨some ['a']⟩) [] "h" = [] ++ ["h"] ∧
    processPendingItem (lowerAddr ['A']) (Except.ok ⟨some ['b']⟩) [] "h" = [] :=
  ⟨(detection_filter_correct ['A'] (by decide) ⟨some ['a']⟩ [] "h").2.1 (by decide),
   (detection_filter_correct ['A'] (by decide) ⟨some ['b']⟩ [] "h").2.2 (by decide)⟩

/-- C9: a resolved transaction whose `to` field is `null` (contract
creation) is silently skipped: the guard is total thanks to the
short-circuit `tx.to &&`, it evaluates to false, no enqueue happens and no
error is raised (the model is a total function). -/
theorem null_recipient_skipped (monitored : Addr) (fq : List String) (h : String) :
    processPendingItem monitored (Except.ok ⟨none⟩) fq h = fq ∧
    detectEnqueue monitored (Except.ok ⟨none⟩) = false := by
  constructor
  · rw [processPendingItem]; simp [detectEnqueue]
  · rfl

/-! ### SweepWorker drain loop: body of `processForwardQueue` (ether.js 77-111)

`while (forwardQueue.length > 0) { try { const balance = await provider.getBalance(...);
if (balance.gt(parseEther("0.0001"))) { const gasPrice = await provider.getGasPrice();
const valueToSend = balance.sub(gasPrice.mul(21000)); if (valueToSend.lte(0)) break;
await wallet.sendTransaction({...}); } else break; } catch (err) { console.error(...); }
forwardQueue.shift(); await sleep(1000); }`

One iteration's interaction with the chain is captured by an environment
record giving the results of the three external calls; the drain loop takes
one environment per iteration index. Amounts are `Int` (ethers `BigNumber`). -/

/-- `ethers.utils.parseEther("0.0001")` in wei. -/
def dustThreshold : Int := 100000000000000

/-- The fixed `gasLimit = 21000` of the sweep transfer. -/
def sweepGasLimit : Int := 21000

/-- Results of the external calls an iteration may make: the balance read,
the fee-price read, and the transfer submission (each may throw). -/
structure IterEnv where
  balanceR : Except Unit Int
  gasPriceR : Except Unit Int
  sendR : Except Unit String

/-- What one loop-body execution did. `breakDust` and `breakInsufficient`
are the two `break` statements (lines 87 and 103: loop exits, no
`shift()`); `errorCaught` is the `catch` arm (line 105: error logged, fall
through to `shift()`); `sent v` is a successful submission of value `v`
(fall through to `shift()`). -/
inductive IterOutcome where
  | breakDust
  | breakInsufficient
  | errorCaught
  | sent (value : Int)
deriving DecidableEq

/-- One execution of the `while` body of `processForwardQueue`, following
the source line by line: read balance (throw → catch), compare with the
dust threshold (`gt` → proceed, else `break`), read gas price (throw →
catch), compute `valueToSend = balance - gasPrice * 21000` (`lte(0)` →
`break`), submit (throw → catch). -/
def forwardIteration (env : IterEnv) : IterOutcome :=
  match env.balanceR with
  | .error _ => .errorCaught
  | .ok balance =>
    if dustThreshold < balance then
      match env.gasPriceR with
      | .error _ => .errorCaught
      | .ok gasPrice =>
        let valueToSend := balance - gasPrice * sweepGasLimit
        if valueToSend ≤ 0 then .breakInsufficient
        else
          match env.sendR with
          | .error _ => .errorCaught
          | .ok _ => .sent valueToSend
    else .breakDust

/-- The drain loop of `processForwardQueue`: `envs i` is the environment of
the i-th iteration. Returns the values successfully submitted, in order,
and the queue contents left behind when the loop exits (non-empty exactly
when a `break` fired). `break` skips `forwardQueue.shift()`; the other two
outcomes pop the head and continue. -/
def processForwardQueue (envs : Nat → IterEnv) : Nat → List String → List Int × List String
  | _, [] => ([], [])
  | i, e :: rest =>
    match forwardIteration (envs i) with
    | .breakDust => ([], e :: rest)
    | .breakInsufficient => ([], e :: rest)
    | .errorCaught => processForwardQueue envs (i + 1) rest
    | .sent v =>
      let r := processForwardQueue envs (i + 1) rest
      (v :: r.1, r.2)

/-- C5: an iteration submits a transfer only when the freshly read balance
`B` and fee price `P` satisfy `B - P * 21000 > 0`, and the submitted value
is exactly `B - P * 21000`; when `B - P * 21000 ≤ 0` the iteration is one
of the two `break`s, and a `break` iteration exits the drain loop with no
submission and the queue intact. -/
theorem sweep_amount_positive :
    (∀ (env : IterEnv) (v : Int), forwardIteration env = .sent v →
      ∃ B P, env.balanceR = .ok B ∧ env.gasPriceR = .ok P ∧
        v = B - P * sweepGasLimit ∧ 0 < v) ∧
    (∀ (env : IterEnv) (B P : Int), env.balanceR = .ok B → env.gasPriceR = .ok P →
      B - P * sweepGasLimit ≤ 0 →
      forwardIteration env = .breakDust ∨ forwardIteration env = .breakInsufficient) ∧
    (∀ (envs : Nat → IterEnv) (i : Nat) (e : String) (rest : List String),
      forwardIteration (envs i) = .breakDust ∨ forwardIteration (envs i) = .breakInsufficient →
      processForwardQueue envs i (e :: rest) = ([], e :: rest)) := by
  refine ⟨?_, ?_, ?_⟩
  · intro env v hsent
    cases hbal : env.balanceR with
    | error u => simp [forwardIteration, hbal] at hsent
    | ok B =>
        by_cases hdust : dustThreshold < B
        · cases hgas : env.gasPriceR with
          | error u => simp [forwardIteration, hbal, hdust, hgas] at hsent
          | ok P =>
              by_cases hle : B - P * sweepGasLimit ≤ 0
              · simp [forwardIteration, hbal, hdust, hgas, hle] at hsent
              · cases hsend : env.sendR with
                | error u => simp [forwardIteration, hbal, hdust, hgas, hle, hsend] at hsent
                | ok hash =>
                    simp only [forwardIteration, hbal, hdust, hgas, hsend,
                      if_pos hdust, if_neg hle] at hsent
                    have hv : B - P * sweepGasLimit = v := IterOutcome.sent.inj hsent
                    exact ⟨B, P, rfl, rfl, hv.symm, by omega⟩
        · simp [forwardIteration, hbal, hdust] at hsent
  · intro env B P hbal hgas hle
    by_cases hdust : dustThreshold < B
    · right
      simp only [forwardIteration, hbal, hgas, if_pos hdust, if_pos hle]
    · left
      simp only [forwardIteration, hbal, if_neg hdust]
  · intro envs i e rest hbr
    cases hbr with
    | inl h => rw [processForwardQueue, h]
    | inr h => rw [processForwardQueue, h]

/-- Witness for C5: with balance 1000000000000000, fee price 10 and a
successful send, the value 1000000000000000 - 210000 is submitted; with
fee price high enough that the amount is non-positive, the iteration is a
`break` and the loop exits with the queue intact. -/
theorem sweep_amount_positive_witness :
    (∃ B P, (⟨Except.ok 1000000000000000, Except.ok 10, Except.ok "h"⟩ : IterEnv).balanceR = .ok B ∧
      (⟨Except.ok 1000000000000000, Except.ok 10, Except.ok "h"⟩ : IterEnv).gasPriceR = .ok P ∧
      (999999999790000 : Int) = B - P * sweepGasLimit ∧ (0:Int) < 999999999790000) ∧
    (forwardIteration ⟨Except.ok 1000000000000001, Except.ok 100000000000, Except.ok "h"⟩ = .breakDust ∨
      forwardIteration ⟨Except.ok 1000000000000001, Except.ok 100000000000, Except.ok "h"⟩ = .breakInsufficient) ∧
    processForwardQueue (fun _ => ⟨Except.ok 1, Except.ok 0, Except.ok "h"⟩) 0 ["e"] = ([], ["e"]) := by
  refine ⟨?_, ?_, ?_⟩
  · exact sweep_amount_positive.1 ⟨Except.ok 1000000000000000, Except.ok 10, Except.ok "h"⟩
      999999999790000 (by decide)
  · exact sweep_amount_positive.2.1 ⟨Except.ok 1000000000000001, Except.ok 100000000000, Except.ok "h"⟩
      1000000000000001 100000000000 rfl rfl (by decide)
  · exact sweep_amount_positive.2.2 (fun _ => ⟨Except.ok 1, Except.ok 0, Except.ok "h"⟩) 0 "e" []
      (Or.inl (by decide))

/-- C6: whenever the iteration reached at index `i` of a drain cycle reads
a balance at or below the dust threshold, the loop breaks immediately: no
entry is popped, the remaining queue is returned intact, and no submission
occurs from that point on in the cycle. -/
theorem dust_early_exit (envs : Nat → IterEnv) (i : Nat) (B : Int)
    (e : String) (rest : List String)
    (hbal : (envs i).balanceR = Except.ok B) (hdust : B ≤ dustThreshold) :
    processForwardQueue envs i (e :: rest) = ([], e :: rest) := by
  have hiter : forwardIteration (envs i) = .breakDust := by
    simp only [forwardIteration, hbal, if_neg (by omega : ¬dustThreshold < B)]
  rw [processForwardQueue, hiter]

/-- Witness for C6: a mid-drain iteration (index 3) reading balance 1 wei
exits with the two-element queue untouched. -/
theorem dust_early_exit_witness :
    processForwardQueue (fun _ => ⟨Except.ok 1, Except.ok 0, Except.ok "h"⟩) 3 ["e1", "e2"]
      = ([], ["e1", "e2"]) :=
  dust_early_exit (fun _ => ⟨Except.ok 1, Except.ok 0, Except.ok "h"⟩) 3 1 "e1" ["e2"]
    rfl (by decide)

/-- C7: an iteration that is not an early exit pops exactly one entry
regardless of the submission outcome: on submission failure the entry is
discarded (caught, logged) and the drain continues on the rest of the
queue; on success the computed value is recorded and the drain likewise
continues on the rest. -/
theorem pop_discard_regardless (envs : Nat → IterEnv) (i : Nat) (e : String)
    (rest : List String) (B P : Int) (hash : String)
    (hbal : (envs i).balanceR = Except.ok B) (hdust : dustThreshold < B)
    (hpos : 0 < B - P * sweepGasLimit) (hgas : (envs i).gasPriceR = Except.ok P) :
    ((envs i).sendR = Except.error () →
      processForwardQueue envs i (e :: rest) = processForwardQueue envs (i + 1) rest) ∧
    ((envs i).sendR = Except.ok hash →
      processForwardQueue envs i (e :: rest) =
        ((B - P * sweepGasLimit) :: (processForwardQueue envs (i + 1) rest).1,
         (processForwardQueue envs (i + 1) rest).2)) := by
  constructor
  · intro hsend
    have hiter : forwardIteration (envs i) = .errorCaught := by
      simp only [forwardIteration, hbal, hgas, hsend, if_pos hdust,
        if_neg (by omega : ¬B - P * sweepGasLimit ≤ 0)]
    rw [processForwardQueue, hiter]
  · intro hsend
    have hiter : forwardIteration (envs i) = .sent (B - P * sweepGasLimit) := by
      simp only [forwardIteration, hbal, hgas, hsend, if_pos hdust,
        if_neg (by omega : ¬B - P * sweepGasLimit ≤ 0)]
    rw [processForwardQueue, hiter]

/-- Witness for C7: balance 2 * 10^14, fee price 0; a failing send discards
the single entry and ends with an empty queue, a succeeding send submits
the full balance. -/
theorem pop_discard_regardless_witness :
    processForwardQueue (fun _ => ⟨Except.ok 200000000000000, Except.ok 0, Except.error ()⟩) 0 ["e"]
      = processForwardQueue (fun _ => ⟨Except.ok 200000000000000, Except.ok 0, Except.error ()⟩) 1 [] ∧
    processForwardQueue (fun _ => ⟨Except.ok 200000000000000, Except.ok 0, Except.ok "h"⟩) 0 ["e"]
      = ((200000000000000 - 0 * sweepGasLimit) ::
          (processForwardQueue (fun _ => ⟨Except.ok 200000000000000, Except.ok 0, Except.ok "h"⟩) 1 []).1,
         (processForwardQueue (fun _ => ⟨Except.ok 200000000000000, Except.ok 0, Except.ok "h"⟩) 1 []).2) :=
  ⟨(pop_discard_regardless (fun _ => ⟨Except.ok 200000000000000, Except.ok 0, Except.error ()⟩)
      0 "e" [] 200000000000000 0 "h" rfl (by decide) (by decide) rfl).1 rfl,
   (pop_discard_regardless (fun _ => ⟨Except.ok 200000000000000, Except.ok 0, Except.ok "h"⟩)
      0 "e" [] 200000000000000 0 "h" rfl (by decide) (by decide) rfl).2 rfl⟩

/-- C10: the `try` block wraps the balance and fee-price reads as well as
the submission, so a throw in either read is caught inside the loop: the
entry is still popped and discarded and the drain continues with the next
entry. -/
theorem read_error_discards (envs : Nat → IterEnv) (i : Nat) (e : String)
    (rest : List String) :
    ((envs i).balanceR = Except.error () →
      processForwardQueue envs i (e :: rest) = processForwardQueue envs (i + 1) rest) ∧
    (∀ B : Int, (envs i).balanceR = Except.ok B → dustThreshold < B →
      (envs i).gasPriceR = Except.error () →
      processForwardQueue envs i (e :: rest) = processForwardQueue envs (i + 1) rest) := by
  constructor
  · intro hbal
    have hiter : forwardIteration (envs i) = .errorCaught := by
      simp only [forwardIteration, hbal]
    rw [processForwardQueue, hiter]
  · intro B hbal hdust hgas
    have hiter : forwardIteration (envs i) = .errorCaught := by
      simp only [forwardIteration, hbal, hgas, if_pos hdust]
    rw [processForwardQueue, hiter]

/-- Witness for C10: a throwing balance read and a throwing fee-price read
each discard the head entry and continue the drain. -/
theorem read_error_discards_witness :
    processForwardQueue (fun _ => ⟨Except.error (), Except.ok 0, Except.ok "h"⟩) 0 ["e"]
      = processForwardQueue (fun _ => ⟨Except.error (), Except.ok 0, Except.ok "h"⟩) 1 [] ∧
    processForwardQueue (fun _ => ⟨Except.ok 200000000000000, Except.error (), Except.ok "h"⟩) 0 ["e"]
      = processForwardQueue (fun _ => ⟨Except.ok 200000000000000, Except.error (), Except.ok "h"⟩) 1 [] :=
  ⟨(read_error_discards (fun _ => ⟨Except.error (), Except.ok 0, Except.ok "h"⟩) 0 "e" []).1 rfl,
   (read_error_discards (fun _ => ⟨Except.ok 200000000000000, Except.error (), Except.ok "h"⟩)
      0 "e" []).2 200000000000000 rfl (by decide) rfl⟩

/-! ### Single-flight activation of the two workers (ether.js 41-51, 73-75)

Each invocation of a worker function is a task on the Node.js event loop.
A task's code runs atomically between `await` suspension points; the
transition systems below have exactly one atomic step per such segment.

`processForwardQueue` (73-75): `if (processingForward) return;
processingForward = true;` — check and set are in the same synchronous
segment, with no `await` in between.

`processPendingQueue` (41-51): `if (processingPending) return;` then the
rate gate may `await` a `setTimeout` (line 47) BEFORE `processingPending =
true` is executed (line 50), and the flag is not re-checked after the
sleep. The gate branch is time-dependent (`now - lastPendingProcessTime <
2000`), modelled as a nondeterministic choice between the sleeping and the
direct entry. Inside a drain loop the flag stays set across every `await`
(`loopIter`), and it is cleared when the loop exits. -/

/-- Program points of one `processForwardQueue` invocation. -/
inductive FwdPc where
  | entry
  | draining
  | finished (startedCycle : Bool)
deriving DecidableEq

/-- The sweep worker's shared flag `processingForward` together with the
program points of all tasks ever spawned on it. -/
structure FwdWorkerState where
  processingForward : Bool
  tasks : List FwdPc

/-- One atomic segment of `processForwardQueue` executed by one task:
(flag before, point before) to (flag after, point after). -/
inductive FwdTaskStep : Bool → FwdPc → Bool → FwdPc → Prop where
  | enterBusy : FwdTaskStep true .entry true (.finished false)
  | enterFree : FwdTaskStep false .entry true .draining
  | loopIter (f : Bool) : FwdTaskStep f .draining f .draining
  | exitLoop (f : Bool) : FwdTaskStep f .draining false (.finished true)

/-- The event loop schedules some task of the sweep worker for one atomic
segment. -/
inductive FwdStep : FwdWorkerState → FwdWorkerState → Prop where
  | lift (f f' : Bool) (l₁ l₂ : List FwdPc) (pc pc' : FwdPc) :
      FwdTaskStep f pc f' pc' →
      FwdStep ⟨f, l₁ ++ pc :: l₂⟩ ⟨f', l₁ ++ pc' :: l₂⟩

/-- Number of concurrently active drain cycles of the sweep worker. -/
def fwdDrainCount (ts : List FwdPc) : Nat :=
  ts.countP (fun pc => decide (pc = .draining))

/-- Invariant: at most one active drain cycle, and none while the flag is
clear. -/
def FwdInv (s : FwdWorkerState) : Prop :=
  fwdDrainCount s.tasks ≤ 1 ∧
  (s.processingForward = false → fwdDrainCount s.tasks = 0)

theorem fwdDrainCount_mid (l₁ l₂ : List FwdPc) (pc : FwdPc) :
    fwdDrainCount (l₁ ++ pc :: l₂) =
      fwdDrainCount l₁ + fwdDrainCount l₂ + (if pc = FwdPc.draining then 1 else 0) := by
  simp only [fwdDrainCount, List.countP_append, List.countP_cons, decide_eq_true_eq]
  split <;> omega

theorem fwdStep_inv {s t : FwdWorkerState} (hstep : FwdStep s t)
    (hinv : FwdInv s) : FwdInv t := by
  cases hstep with
  | lift f f' l₁ l₂ pc pc' htask =>
      cases htask with
      | enterBusy =>
          have h1 := hinv.1
          rw [fwdDrainCount_mid] at h1
          constructor
          · rw [fwdDrainCount_mid]
            simp only [reduceCtorEq, if_neg] at h1 ⊢
            simp at h1 ⊢
            omega
          · intro hf; simp at hf
      | enterFree =>
          have h0 : fwdDrainCount (l₁ ++ FwdPc.entry :: l₂) = 0 := hinv.2 rfl
          rw [fwdDrainCount_mid] at h0
          simp at h0
          constructor
          · rw [fwdDrainCount_mid]
            simp
            omega
          · intro hf; simp at hf
      | loopIter f => exact hinv
      | exitLoop f =>
          have h1 := hinv.1
          rw [fwdDrainCount_mid] at h1
          simp at h1
          constructor
          · rw [fwdDrainCount_mid]
            simp
            omega
          · intro _
            rw [fwdDrainCount_mid]
            simp
            omega

theorem fwdReach_inv {s t : FwdWorkerState}
    (h : Relation.ReflTransGen FwdStep s t) (hinv : FwdInv s) : FwdInv t := by
  induction h with
  | refl => exact hinv
  | tail _ hstep ih => exact fwdStep_inv hstep ih

theorem fwdDrainCount_replicate (n : Nat) :
    fwdDrainCount (List.replicate n .entry) = 0 := by
  induction n with
  | zero => rfl
  | succ m ih =>
      simp only [List.replicate_succ, fwdDrainCount, List.countP_cons] at ih ⊢
      simp [ih]

/-- Program points of one `processPendingQueue` invocation.
`gateSleeping` is the rate-gate `await` of line 47, reached after the flag
check passed but before the flag is set. -/
inductive PendPc where
  | entry
  | gateSleeping
  | draining
  | finished (startedCycle : Bool)
deriving DecidableEq

/-- The detection worker's shared flag `processingPending` together with
the program points of all tasks ever spawned on it. -/
structure PendWorkerState where
  processingPending : Bool
  tasks : List PendPc

/-- One atomic segment of `processPendingQueue` executed by one task.
`wakeSet` resumes from the rate-gate sleep and sets the flag WITHOUT
re-checking it, exactly as lines 47-50 of the source. -/
inductive PendTaskStep : Bool → PendPc → Bool → PendPc → Prop where
  | enterBusy : PendTaskStep true .entry true (.finished false)
  | enterGate : PendTaskStep false .entry false .gateSleeping
  | enterDirect : PendTaskStep false .entry true .draining
  | wakeSet (f : Bool) : PendTaskStep f .gateSleeping true .draining
  | loopIter (f : Bool) : PendTaskStep f .draining f .draining
  | exitLoop (f : Bool) : PendTaskStep f .draining false (.finished true)

/-- The event loop schedules some task of the detection worker for one
atomic segment. -/
inductive PendStep : PendWorkerState → PendWorkerState → Prop where
  | lift (f f' : Bool) (l₁ l₂ : List PendPc) (pc pc' : PendPc) :
      PendTaskStep f pc f' pc' →
      PendStep ⟨f, l₁ ++ pc :: l₂⟩ ⟨f', l₁ ++ pc' :: l₂⟩

/-- Number of concurrently active drain cycles of the detection worker. -/
def pendDrainCount (ts : List PendPc) : Nat :=
  ts.countP (fun pc => decide (pc = .draining))

/-- C1 counterexample: the claim fails for `processPendingQueue`. Concrete
schedule: a first signal runs a full cycle (setting
`lastPendingProcessTime`); two further signals arrive within the 2000 ms
gate window and each passes the flag check and enters the rate-gate
sleep; both then wake and set the flag without re-checking it, reaching a
state in which two drain cycles are active at once. -/
theorem processPending_double_drain :
    Relation.ReflTransGen PendStep
      ⟨false, [.entry, .entry, .entry]⟩
      ⟨true, [.finished true, .draining, .draining]⟩ ∧
    pendDrainCount [.finished true, .draining, .draining] = 2 := by
  constructor
  · have h1 : PendStep ⟨false, [.entry, .entry, .entry]⟩
        ⟨true, [.draining, .entry, .entry]⟩ :=
      PendStep.lift false true [] [.entry, .entry] .entry .draining
        PendTaskStep.enterDirect
    have h2 : PendStep ⟨true, [.draining, .entry, .entry]⟩
        ⟨false, [.finished true, .entry, .entry]⟩ :=
      PendStep.lift true false [] [.entry, .entry] .draining (.finished true)
        (PendTaskStep.exitLoop true)
    have h3 : PendStep ⟨false, [.finished true, .entry, .entry]⟩
        ⟨false, [.finished true, .gateSleeping, .entry]⟩ :=
      PendStep.lift false false [.finished true] [.entry] .entry .gateSleeping
        PendTaskStep.enterGate
    have h4 : PendStep ⟨false, [.finished true, .gateSleeping, .entry]⟩
        ⟨false, [.finished true, .gateSleeping, .gateSleeping]⟩ :=
      PendStep.lift false false [.finished true, .gateSleeping] [] .entry .gateSleeping
        PendTaskStep.enterGate
    have h5 : PendStep ⟨false, [.finished true, .gateSleeping, .gateSleeping]⟩
        ⟨true, [.finished true, .draining, .gateSleeping]⟩ :=
      PendStep.lift false true [.finished true] [.gateSleeping] .gateSleeping .draining
        (PendTaskStep.wakeSet false)
    have h6 : PendStep ⟨true, [.finished true, .draining, .gateSleeping]⟩
        ⟨true, [.finished true, .draining, .draining]⟩ :=
      PendStep.lift true true [.finished true, .draining] [] .gateSleeping .draining
        (PendTaskStep.wakeSet true)
    exact .tail (.tail (.tail (.tail (.tail (.tail .refl h1) h2) h3) h4) h5) h6
  · rfl

/-- C1 (amended): for the sweep worker (`processForwardQueue`) the
single-flight guarantee holds in full — from any number of activation
signals, every reachable state has at most one active drain cycle; for the
detection worker (`processPendingQueue`) a reactivation signal arriving
while the `processingPending` flag is set is a guaranteed no-op (the task
returns at once without starting a cycle), but a signal arriving during
the pre-flag rate-gate sleep is not covered by the flag and can start a
second concurrent cycle. -/
theorem single_flight_amended :
    (∀ (n : Nat) (s : FwdWorkerState),
      Relation.ReflTransGen FwdStep ⟨false, List.replicate n .entry⟩ s →
      fwdDrainCount s.tasks ≤ 1) ∧
    (∀ (f' : Bool) (pc' : PendPc), PendTaskStep true .entry f' pc' →
      f' = true ∧ pc' = .finished false) := by
  constructor
  · intro n s hreach
    have hinit : FwdInv ⟨false, List.replicate n .entry⟩ :=
      ⟨by simp [fwdDrainCount_replicate], fun _ => fwdDrainCount_replicate n⟩
    exact (fwdReach_inv hreach hinit).1
  · intro f' pc' hstep
    cases hstep
    exact ⟨rfl, rfl⟩

/-- Witness for C1 (amended): after one signal activates the sweep worker
(one step from the initial state), exactly one drain cycle is active; and
the busy-entry segment of the detection worker is a no-op. -/
theorem single_flight_amended_witness :
    fwdDrainCount (⟨true, [FwdPc.draining]⟩ : FwdWorkerState).tasks ≤ 1 ∧
    (true = true ∧ PendPc.finished false = PendPc.finished false) :=
  ⟨single_flight_amended.1 1 ⟨true, [FwdPc.draining]⟩
      (Relation.ReflTransGen.tail Relation.ReflTransGen.refl
        (FwdStep.lift false true [] [] .entry .draining FwdTaskStep.enterFree)),
   single_flight_amended.2 true (.finished false) PendTaskStep.enterBusy⟩

/-! ### Transport failure handlers (ether.js 129-140) -/

/-- One observable action of a websocket event handler. `reconnect` is
included so that "no in-process reconnection" is expressible; neither
handler performs it. -/
inductive HandlerAction where
  | log (msg : String)
  | scheduleExit (delayMs : Nat) (code : Nat)
  | reconnect
deriving DecidableEq

/-- `provider._websocket.on('error', ...)` (ether.js 129-131): it only
logs the error. -/
def wsErrorHandler : List HandlerAction :=
  [.log "WebSocket connection error"]

/-- `provider._websocket.on('close', ...)` (ether.js 134-140): logs, then
`setTimeout(() => process.exit(1), 3000)`. -/
def wsCloseHandler : List HandlerAction :=
  [.log "WebSocket connection closed",
   .log "Attempting to reconnect...",
   .scheduleExit 3000 1]

/-- Does the action terminate the process? -/
def isExitAction : HandlerAction → Bool
  | .scheduleExit _ _ => true
  | _ => false

/-- Does the action terminate the process with a non-zero code? -/
def isNonzeroExitAction : HandlerAction → Bool
  | .scheduleExit _ c => c != 0
  | _ => false

/-- Does the action attempt an in-process reconnection? -/
def isReconnectAction : HandlerAction → Bool
  | .reconnect => true
  | _ => false

/-- C8 counterexample: the error-event handler performs no process
termination at all — it only logs — refuting the claim that the program
terminates for both the close event and the error event. -/
theorem wsErrorHandler_never_exits :
    wsErrorHandler.any isExitAction = false := rfl

/-- C8 (amended): on the close event the program schedules process
termination with the non-zero exit code 1 (after a 3-second delay) and
attempts no in-process reconnection; the error event only logs — it
neither terminates the process nor reconnects. -/
theorem transport_failure_handling :
    wsCloseHandler.any isNonzeroExitAction = true ∧
    wsCloseHandler.any isReconnectAction = false ∧
    wsErrorHandler.any isExitAction = false ∧
    wsErrorHandler.any isReconnectAction = false :=
  ⟨rfl, rfl, rfl, rfl⟩

end EtherBot
